import Mathlib

/-!
Shallow embedding of `src/scripts/investigation-board.js` (module
`investigation-board` for Foundry VTT), covering the note state
synchronization engine (`NotePositionManager`), its hook handlers, its
query operations, and the text-truncation algorithm
(`getDynamicCharacterLimits` / `CustomDrawing._truncateText`).

Modelling conventions:
* JavaScript numbers are modelled as `ℚ` (the claims under study do not
  depend on binary floating-point rounding).
* A JavaScript object used as a string-keyed map is modelled as an
  insertion-ordered association list `List (String × α)`: assigning an
  existing key replaces its value in place, assigning a fresh key appends
  (`mapSet`), `delete` removes the entry (`mapDel`), indexing is `mapGet`,
  and `Object.values` is `List.map Prod.snd`.
* Asynchronous persistence (`scene.setFlag`) is modelled by threading an
  explicit success flag `ok : Bool` into every operation that persists:
  the `try/catch` in `savePositions` means a rejected persist leaves the
  engine state unchanged and no exception escapes.
* `console.log` / `console.warn` / `console.error`, `this.emit` (observer
  callbacks) and `drawing.refresh()` have no effect on the engine state
  and are dropped; `drawing.document.update(data, { noSocket: true })`
  (a suppressed render-correction write) updates the rendered drawing and
  is logged in `renderWrites`; the `updateDrawing` hook it fires re-enters
  `onNoteUpdate` with `options.noSocket = true`, which returns at once.
-/

namespace InvestigationBoard

/-- Constant `BASE_FONT_SIZE = 15` from the source head. -/
def BASE_FONT_SIZE : ℚ := 15

/-! ### JavaScript-object maps -/

/-- Indexing `obj[k]` on a string-keyed object. -/
def mapGet {α : Type} : List (String × α) → String → Option α
  | [], _ => none
  | (k', v) :: rest, k => if k' = k then some v else mapGet rest k

/-- Assignment `obj[k] = v`: an existing key keeps its place in the
iteration order, a fresh key is appended at the end. -/
def mapSet {α : Type} : List (String × α) → String → α → List (String × α)
  | [], k, v => [(k, v)]
  | (k', v') :: rest, k, v =>
      if k' = k then (k, v) :: rest else (k', v') :: mapSet rest k v

/-- Property deletion `delete obj[k]`. -/
def mapDel {α : Type} (m : List (String × α)) (k : String) : List (String × α) :=
  m.filter (fun p => decide (p.1 ≠ k))

/-! ### Data model -/

/-- The module-specific flags `document.flags["investigation-board"]`;
each property may be absent (JavaScript `undefined`). -/
structure NoteFlags where
  ftype : Option String
  ftext : Option String
  fimage : Option String
  fpinColor : Option String
  fidentityName : Option String
deriving DecidableEq

/-- The part of a Foundry `DrawingDocument` read by the engine.  The
numeric fields are total: `rotation`, `z`, `scaleX`, `scaleY` go through
the source's `||`-defaulting (`jsOrQ`), which maps the falsy value `0`
(standing also for `undefined`) to the default. -/
structure Doc where
  id : String
  x : ℚ
  y : ℚ
  rotation : ℚ
  z : ℚ
  shapeWidth : ℚ
  shapeHeight : ℚ
  scaleX : ℚ
  scaleY : ℚ
  flags : Option NoteFlags
deriving DecidableEq

/-- The comprehensive position object built by
`NotePositionManager.updatePosition` and stored in `this.positions`. -/
structure NoteRecord where
  id : String
  x : ℚ
  y : ℚ
  rotation : ℚ
  z : ℚ
  width : ℚ
  height : ℚ
  scaleX : ℚ
  scaleY : ℚ
  type : String
  text : String
  image : String
  pinColor : String
  identityName : String
  updated : ℕ
deriving DecidableEq

/-- CanonicalState: `this.positions`, a string-keyed object. -/
abbrev PositionsMap := List (String × NoteRecord)

/-- JavaScript `a || d` for a number in falsy-default position: `0` (and
`undefined`, collapsed into `0` here) yields the default. -/
def jsOrQ (v dflt : ℚ) : ℚ := if v = 0 then dflt else v

/-- JavaScript `a || d` for an optional string: `undefined` and the empty
string are falsy and yield the default. -/
def jsOrS (v : Option String) (dflt : String) : String :=
  match v with
  | some s => if s = "" then dflt else s
  | none => dflt

/-- The record literal built inside `updatePosition` from a document,
with `updated := Date.now()` passed in as `now`. -/
def recordOf (doc : Doc) (now : ℕ) : NoteRecord :=
  { id := doc.id
    x := doc.x
    y := doc.y
    rotation := jsOrQ doc.rotation 0
    z := jsOrQ doc.z 0
    width := doc.shapeWidth
    height := doc.shapeHeight
    scaleX := jsOrQ doc.scaleX 1
    scaleY := jsOrQ doc.scaleY 1
    type := jsOrS (doc.flags.bind NoteFlags.ftype) "sticky"
    text := jsOrS (doc.flags.bind NoteFlags.ftext) ""
    image := jsOrS (doc.flags.bind NoteFlags.fimage) ""
    pinColor := jsOrS (doc.flags.bind NoteFlags.fpinColor) ""
    identityName := jsOrS (doc.flags.bind NoteFlags.fidentityName) ""
    updated := now }

/-- The fields of a rendered drawing (`canvas.drawings.get(id)`) that
`loadPositions` compares against a stored record. -/
structure Drawing where
  x : ℚ
  y : ℚ
  rotation : ℚ
  z : ℚ
  shapeWidth : ℚ
  shapeHeight : ℚ
  scaleX : ℚ
  scaleY : ℚ
  ftype : String
  ftext : String
  fimage : String
  fpinColor : String
  fidentityName : String
deriving DecidableEq

/-- Wire payload sent via `socket.executeForOthers("updateNotePosition", …)`:
`{ id, position }`, where `position = null` (modelled `none`) signals
deletion.  A malformed message with a missing id is modelled by the falsy
empty string. -/
structure PositionMessage where
  id : String
  position : Option NoteRecord
deriving DecidableEq

/-- The whole engine state of one peer: `this.positions`, the persisted
scene flag (`none` when there is no active scene), the rendered drawings,
the log of emitted socket broadcasts, the log of suppressed
render-correction writes, whether socketlib is active, and
`game.user.id`. -/
structure EngineState where
  positions : PositionsMap
  store : Option PositionsMap
  drawings : List (String × Drawing)
  broadcasts : List PositionMessage
  renderWrites : List String
  hasSocket : Bool
  selfUserId : String
deriving DecidableEq

/-! ### Engine operations -/

/-- `NotePositionManager.savePositions`: returns early without a scene;
otherwise `try { await canvas.scene.setFlag(…, this.positions) } catch`
— a failed persist (`ok = false`) is caught and logged, leaving every
part of the state unchanged. -/
def savePositions (ok : Bool) (st : EngineState) : EngineState :=
  match st.store with
  | none => st
  | some _ => if ok then { st with store := some st.positions } else st

/-- `NotePositionManager.updatePosition(document, userId)`: builds the
full record, writes it into `this.positions`, persists, emits to
observers, and broadcasts the record iff socketlib is active and
`game.user.id === userId`. -/
def updatePosition (doc : Doc) (userId : String) (now : ℕ) (ok : Bool)
    (st : EngineState) : EngineState :=
  let pos := recordOf doc now
  let st1 := { st with positions := mapSet st.positions doc.id pos }
  let st2 := savePositions ok st1
  if st2.hasSocket ∧ st2.selfUserId = userId then
    { st2 with broadcasts := st2.broadcasts ++ [⟨doc.id, some pos⟩] }
  else st2

/-- `NotePositionManager.onExternalPositionUpdate(data)`: guarded by
`if (data.id && data.position)`; on a truthy id and non-null position it
upserts the record (and refreshes the rendered drawing, which has no
engine-state effect). -/
def onExternalPositionUpdate (data : PositionMessage) (st : EngineState) :
    EngineState :=
  match data.position with
  | some pos =>
      if data.id = "" then st
      else { st with positions := mapSet st.positions data.id pos }
  | none => st

/-- The `updateData` argument of the `updateDrawing` hook: every field
may be absent (`undefined`), matching the source's
`updateData.x !== undefined` style of presence tests. -/
structure UpdateData where
  x : Option ℚ
  y : Option ℚ
  rotation : Option ℚ
  z : Option ℚ
  scaleX : Option ℚ
  scaleY : Option ℚ
  shapeWidth : Option ℚ
  shapeHeight : Option ℚ
  ftype : Option String
  ftext : Option String
  fimage : Option String
  fpinColor : Option String
  fidentityName : Option String
deriving DecidableEq

/-- The `hasPositionChange || hasShapeChange || hasFlagChanges` test of
`onNoteUpdate`. -/
def hasRelevantChange (u : UpdateData) : Bool :=
  (u.x.isSome || u.y.isSome || u.rotation.isSome || u.z.isSome ||
    u.scaleX.isSome || u.scaleY.isSome) ||
  (u.shapeWidth.isSome || u.shapeHeight.isSome) ||
  (u.ftype.isSome || u.ftext.isSome || u.fimage.isSome ||
    u.fpinColor.isSome || u.fidentityName.isSome)

/-- Hook handler `onNoteUpdate(document, updateData, options, userId)`:
skips socket-triggered updates (`options.noSocket`), then acts only on
documents carrying the module flags and only when some tracked field is
part of the change. -/
def onNoteUpdate (doc : Doc) (updateData : UpdateData) (noSocket : Bool)
    (userId : String) (now : ℕ) (ok : Bool) (st : EngineState) : EngineState :=
  if noSocket then st
  else
    match doc.flags with
    | some _ =>
        if hasRelevantChange updateData then updatePosition doc userId now ok st
        else st
    | none => st

/-- Hook handler `onNoteCreate(document, options, userId)`.  The source
never reads `options` here, so the `noSocket` argument is unused. -/
def onNoteCreate (doc : Doc) (noSocket : Bool) (userId : String) (now : ℕ)
    (ok : Bool) (st : EngineState) : EngineState :=
  match doc.flags with
  | some _ => updatePosition doc userId now ok st
  | none => st

/-- Hook handler `onNoteDelete(document, options, userId)`: acts when the
document carries the module flags and `this.positions[document.id]` is
truthy; removes the entry, persists, and broadcasts `{ id, position: null }`
iff socketlib is active and `game.user.id === userId`.  The source never
reads `options` here, so the `noSocket` argument is unused. -/
def onNoteDelete (doc : Doc) (noSocket : Bool) (userId : String) (ok : Bool)
    (st : EngineState) : EngineState :=
  match doc.flags, mapGet st.positions doc.id with
  | some _, some _ =>
      let st1 := { st with positions := mapDel st.positions doc.id }
      let st2 := savePositions ok st1
      if st2.hasSocket ∧ st2.selfUserId = userId then
        { st2 with broadcasts := st2.broadcasts ++ [⟨doc.id, none⟩] }
      else st2
  | _, _ => st

/-! ### Hydration (`loadPositions`) -/

/-- The field-by-field presence/difference test of `loadPositions` that
decides whether an `updateData` entry is produced for a rendered
drawing.  In this model record fields are always present, so each
`position.f !== undefined && drawing.f !== position.f` conjunct reduces
to the difference test. -/
def diffFields (d : Drawing) (r : NoteRecord) : Bool :=
  decide (d.x ≠ r.x) || decide (d.y ≠ r.y) ||
  decide (d.rotation ≠ r.rotation) || decide (d.z ≠ r.z) ||
  decide (d.shapeWidth ≠ r.width) || decide (d.shapeHeight ≠ r.height) ||
  decide (d.scaleX ≠ r.scaleX) || decide (d.scaleY ≠ r.scaleY) ||
  decide (d.ftype ≠ r.type) || decide (d.ftext ≠ r.text) ||
  decide (d.fimage ≠ r.image) || decide (d.fpinColor ≠ r.pinColor) ||
  decide (d.fidentityName ≠ r.identityName)

/-- Applying the `updateData` built by `loadPositions` to a drawing:
each field is overwritten exactly when it was found to differ. -/
def correctedDrawing (d : Drawing) (r : NoteRecord) : Drawing :=
  { x := if d.x = r.x then d.x else r.x
    y := if d.y = r.y then d.y else r.y
    rotation := if d.rotation = r.rotation then d.rotation else r.rotation
    z := if d.z = r.z then d.z else r.z
    shapeWidth := if d.shapeWidth = r.width then d.shapeWidth else r.width
    shapeHeight := if d.shapeHeight = r.height then d.shapeHeight else r.height
    scaleX := if d.scaleX = r.scaleX then d.scaleX else r.scaleX
    scaleY := if d.scaleY = r.scaleY then d.scaleY else r.scaleY
    ftype := if d.ftype = r.type then d.ftype else r.type
    ftext := if d.ftext = r.text then d.ftext else r.text
    fimage := if d.fimage = r.image then d.fimage else r.image
    fpinColor := if d.fpinColor = r.pinColor then d.fpinColor else r.pinColor
    fidentityName :=
      if d.fidentityName = r.identityName then d.fidentityName
      else r.identityName }

/-- The drawing whose compared fields all agree with a record. -/
def drawingOf (r : NoteRecord) : Drawing :=
  { x := r.x, y := r.y, rotation := r.rotation, z := r.z
    shapeWidth := r.width, shapeHeight := r.height
    scaleX := r.scaleX, scaleY := r.scaleY
    ftype := r.type, ftext := r.text, fimage := r.image
    fpinColor := r.pinColor, fidentityName := r.identityName }

/-- The correction loop of `loadPositions`: for each stored entry whose
drawing is on canvas, a suppressed `document.update` is issued exactly
when some compared field differs (`updateData` nonempty); the returned
list records the ids written, in iteration order.  Each such update
fires the `updateDrawing` hook with `noSocket: true`, which `onNoteUpdate`
discards at once, so no further engine-state effect is modelled. -/
def applyCorrections :
    List (String × NoteRecord) → List (String × Drawing) →
      List (String × Drawing) × List String
  | [], ds => (ds, [])
  | (id, r) :: rest, ds =>
      match mapGet ds id with
      | some d =>
          if diffFields d r then
            let res := applyCorrections rest (mapSet ds id (correctedDrawing d r))
            (res.1, id :: res.2)
          else applyCorrections rest ds
      | none => applyCorrections rest ds

/-- `NotePositionManager.loadPositions` (hydrate): returns early without
a scene; otherwise replaces `this.positions` with the stored snapshot
(`getFlag(…) || {}` is the snapshot itself whenever one was stored) and
issues suppressed corrections to the live drawings.  It never touches
the store and never broadcasts. -/
def loadPositions (st : EngineState) : EngineState :=
  match st.store with
  | none => st
  | some saved =>
      let res := applyCorrections saved st.drawings
      { st with
        positions := saved
        drawings := res.1
        renderWrites := st.renderWrites ++ res.2 }

/-! ### Query operations -/

/-- `startsWithL p s`: does `s` start with `p`?  Helper for the
JavaScript `String.prototype.includes` model. -/
def startsWithL : List Char → List Char → Bool
  | [], _ => true
  | _ :: _, [] => false
  | a :: as, b :: bs => a = b && startsWithL as bs

/-- Substring containment on character lists. -/
def containsSubL (p : List Char) : List Char → Bool
  | [] => startsWithL p []
  | b :: bs => startsWithL p (b :: bs) || containsSubL p bs

/-- JavaScript `s.includes(sub)`. -/
def jsIncludes (s sub : String) : Bool := containsSubL sub.toList s.toList

/-- JavaScript `s.toLowerCase()` (ASCII-faithful). -/
def jsToLowerCase (s : String) : String := s.map Char.toLower

/-- `NotePositionManager.searchNotesByText(searchText)`: filters
`Object.values(this.positions)` by
`pos.text && pos.text.toLowerCase().includes(searchText.toLowerCase())`;
the first conjunct makes the empty text falsy and thus never returned. -/
def searchNotesByText (st : EngineState) (searchText : String) :
    List NoteRecord :=
  (st.positions.map Prod.snd).filter
    (fun pos =>
      decide (pos.text ≠ "") &&
        jsIncludes (jsToLowerCase pos.text) (jsToLowerCase searchText))

/-- Squared Euclidean distance `dx*dx + dy*dy` of a record to the query
point.  The source compares `Math.sqrt(dx*dx + dy*dy)` values; since
`Real.sqrt` is strictly monotone on nonnegative arguments, all of its
comparisons (including against the initial `minDistance = maxDistance`,
for `maxDistance ≥ 0`) are equivalent to the comparisons of the squares
used here, which keeps the definition executable over `ℚ`. -/
def dSq (x y : ℚ) (r : NoteRecord) : ℚ :=
  (r.x - x) * (r.x - x) + (r.y - y) * (r.y - y)

/-- The accumulator loop of `findNearestNote`: `nearest` starts at
`null`, the running minimum starts at the (squared) `maxDistance`, and a
record strictly closer than the running minimum replaces it. -/
def nnLoop (x y : ℚ) : List NoteRecord → Option NoteRecord → ℚ →
    Option NoteRecord
  | [], nearest, _ => nearest
  | pos :: rest, nearest, minD =>
      if dSq x y pos < minD then nnLoop x y rest (some pos) (dSq x y pos)
      else nnLoop x y rest nearest minD

/-- `NotePositionManager.findNearestNote(x, y, maxDistance = 100)`
over `Object.values(this.positions)` in iteration order. -/
def findNearestNote (st : EngineState) (x y : ℚ) (maxDistance : ℚ) :
    Option NoteRecord :=
  nnLoop x y (st.positions.map Prod.snd) none (maxDistance * maxDistance)

/-! ### Text truncation -/

/-- A JavaScript numeric value as it flows through
`getDynamicCharacterLimits`: either a number or the falsy non-numbers
`undefined` / `NaN`, which are collapsed into `undef` (both are falsy,
and `undefined` absorbs into `NaN` under arithmetic, which `Math.round`
preserves). -/
inductive JVal where
  | num : ℚ → JVal
  | undef : JVal
deriving DecidableEq

/-- JavaScript `Math.round`: half-up, i.e. `⌊q + 1/2⌋`. -/
def jsRoundQ (q : ℚ) : ℚ := ((⌊q + (1 : ℚ) / 2⌋ : ℤ) : ℚ)

/-- The object returned by `getDynamicCharacterLimits`. -/
structure DynLimits where
  sticky : JVal
  photo : JVal
  index : JVal
deriving DecidableEq

/-- Property access `limits[noteType]` on the returned object: any key
other than the three declared properties yields `undefined`. -/
def DynLimits.get (l : DynLimits) : String → JVal
  | "sticky" => l.sticky
  | "photo" => l.photo
  | "index" => l.index
  | _ => JVal.undef

/-- Modelled from the spec: the shape of the `baseCharacterLimits`
setting is declared in `settings.js`, which is not under `src/`; per the
spec (§4.3, §4 C4 sources) it maps each note type to a numeric
character budget, so the setting is `Option (List (String × ℚ))`
(`none` when unset).  `getBaseCharacterLimits` is
`game.settings.get(…) || { sticky: 60, photo: 15, index: 200 }`; an
object, even empty, is truthy, so only an unset value falls back. -/
def getBaseCharacterLimits (setting : Option (List (String × ℚ))) :
    List (String × ℚ) :=
  match setting with
  | some l => l
  | none => [("sticky", 60), ("photo", 15), ("index", 200)]

/-- `getDynamicCharacterLimits(noteType, currentFontSize)`.  The source
computes `limits = baseLimits[noteType] || { sticky: 60, photo: 15,
index: 200 }` and then reads `limits.sticky` / `limits.photo` /
`limits.index`.  When the lookup hits a (truthy, i.e. nonzero) number,
those property reads yield `undefined` and
`Math.round(undefined * scaleFactor)` is `NaN` (`JVal.undef`); when the
lookup is falsy the built-in default object is used. -/
def getDynamicCharacterLimits (setting : Option (List (String × ℚ)))
    (noteType : String) (currentFontSize : ℚ) : DynLimits :=
  let baseLimits := getBaseCharacterLimits setting
  let scaleFactor := BASE_FONT_SIZE / currentFontSize
  match mapGet baseLimits noteType with
  | some q =>
      if q = 0 then
        { sticky := JVal.num (jsRoundQ (60 * scaleFactor))
          photo := JVal.num (jsRoundQ (15 * scaleFactor))
          index := JVal.num (jsRoundQ (200 * scaleFactor)) }
      else
        { sticky := JVal.undef, photo := JVal.undef, index := JVal.undef }
  | none =>
      { sticky := JVal.num (jsRoundQ (60 * scaleFactor))
        photo := JVal.num (jsRoundQ (15 * scaleFactor))
        index := JVal.num (jsRoundQ (200 * scaleFactor)) }

/-- The character limit `_truncateText` ends up using:
`getDynamicCharacterLimits(font, fontSize)[noteType] || 100` — note the
source passes the FONT NAME as the first argument.  `NaN`, `undefined`
and `0` are falsy and fall back to `100`. -/
def charLimitOf (setting : Option (List (String × ℚ))) (font noteType : String)
    (currentFontSize : ℚ) : ℚ :=
  match (getDynamicCharacterLimits setting font currentFontSize).get noteType with
  | JVal.num q => if q = 0 then 100 else q
  | JVal.undef => 100

/-- JavaScript `s.slice(0, k)` for a numeric `k`: the end index is
truncated toward zero, a negative index counts from the end, and the
result is clamped to the string. -/
def jsSlice (s : String) (k : ℚ) : String :=
  let n : ℤ := if k < 0 then ⌈k⌉ else ⌊k⌋
  let e : ℤ := if n < 0 then max ((s.length : ℤ) + n) 0 else min n (s.length : ℤ)
  (s.toList.take e.toNat).asString

/-- JavaScript `s.trim()`: removes whitespace from BOTH ends of the
string (ASCII-faithful via `Char.isWhitespace`). -/
def jsTrim (s : String) : String :=
  ((s.toList.dropWhile Char.isWhitespace).reverse.dropWhile
      Char.isWhitespace).reverse.asString

/-- `CustomDrawing._truncateText(text, font, noteType, currentFontSize)`:
`text.length <= charLimit ? text : text.slice(0, charLimit).trim() + "..."`.
Note that `String.prototype.trim` removes whitespace from BOTH ends. -/
def _truncateText (setting : Option (List (String × ℚ))) (text font noteType : String)
    (currentFontSize : ℚ) : String :=
  let charLimit := charLimitOf setting font noteType currentFontSize
  if (text.length : ℚ) ≤ charLimit then text
  else jsTrim (jsSlice text charLimit) ++ "..."

/-! ### Concrete test data -/

/-- Record constructor for concrete test states. -/
def mkRec (i : String) (px py : ℚ) (txt : String) : NoteRecord :=
  { id := i, x := px, y := py, rotation := 0, z := 0, width := 100, height := 100
    scaleX := 1, scaleY := 1, type := "sticky", text := txt, image := ""
    pinColor := "", identityName := "", updated := 0 }

/-- An engine with an active empty scene, socketlib available, local
user `"me"`. -/
def emptySt : EngineState :=
  { positions := [], store := some [], drawings := [], broadcasts := []
    renderWrites := [], hasSocket := true, selfUserId := "me" }

/-- Module flags of a concrete sticky note. -/
def cexFlags : NoteFlags :=
  { ftype := some "sticky", ftext := some "Clue", fimage := none
    fpinColor := none, fidentityName := none }

/-- A concrete note document carrying the module flags. -/
def cexDoc : Doc :=
  { id := "d1", x := 1, y := 2, rotation := 0, z := 0, shapeWidth := 200
    shapeHeight := 200, scaleX := 1, scaleY := 1, flags := some cexFlags }

/-- Two records at equal distance 1 from the query point `(1, 0)`; the
one with the larger id `"b"` was inserted first. -/
def tieState : EngineState :=
  { emptySt with positions := [("b", mkRec "b" 0 0 ""), ("a", mkRec "a" 2 0 "")] }

/-- The spec's nearest-neighbor example state: records at `(0,0)` and
`(10,0)`. -/
def nnState : EngineState :=
  { emptySt with
    positions := [("n1", mkRec "n1" 0 0 ""), ("n2", mkRec "n2" 10 0 "")] }

/-- A store snapshot with one record. -/
def hydStore : PositionsMap := [("h1", mkRec "h1" 5 5 "hello")]

/-- A state whose store holds `hydStore` while the rendered drawing for
`"h1"` is out of date, and whose CanonicalState differs from the store. -/
def hydState : EngineState :=
  { emptySt with
    store := some hydStore
    drawings := [("h1", { drawingOf (mkRec "h1" 5 5 "hello") with x := 99 })] }

/-- A length-80 text. -/
def wText80 : String := String.mk (List.replicate 80 'b')

/-- A length-40 text. -/
def wText40 : String := String.mk (List.replicate 40 'c')

/-- A length-80 text starting with a space. -/
def cexText80 : String := String.mk (' ' :: List.replicate 79 'a')

/-- The spec's truncation-law configuration: `baseLimits.sticky = 60`. -/
def stdLimits : Option (List (String × ℚ)) :=
  some [("sticky", 60), ("photo", 15), ("index", 200)]

/-- Modelled from the spec: trailing-whitespace-only trimming, the
operation the spec's truncation sentence names ("the first limit
characters with trailing whitespace trimmed"); `settings.js` plays no
role here, this definition exists to compare the spec's wording with the
source's both-ends `trim()`. -/
def trimTrailing (s : String) : String :=
  ((s.toList.reverse.dropWhile Char.isWhitespace).reverse).asString

/-! ### Helper lemmas -/

theorem mapSet_mapSet {α : Type} (m : List (String × α)) (k : String) (v : α) :
    mapSet (mapSet m k v) k v = mapSet m k v := by
  induction m with
  | nil => simp [mapSet]
  | cons p rest ih =>
      obtain ⟨k', v'⟩ := p
      by_cases h : k' = k
      · simp [mapSet, h]
      · simp [mapSet, h, ih]

theorem containsSubL_nil (l : List Char) : containsSubL [] l = true := by
  cases l <;> simp [containsSubL, startsWithL]

theorem savePositions_eq (ok : Bool) (st : EngineState) :
    savePositions ok st =
      { st with
        store := if ok && st.store.isSome then some st.positions else st.store } := by
  obtain ⟨p, s, d, b, rws, hs, su⟩ := st
  cases s <;> cases ok <;> simp [savePositions]

theorem updatePosition_eq (doc : Doc) (u : String) (now : ℕ) (ok : Bool)
    (st : EngineState) :
    updatePosition doc u now ok st =
      { positions := mapSet st.positions doc.id (recordOf doc now)
        store :=
          if ok && st.store.isSome then
            some (mapSet st.positions doc.id (recordOf doc now))
          else st.store
        drawings := st.drawings
        broadcasts :=
          if st.hasSocket ∧ st.selfUserId = u then
            st.broadcasts ++ [⟨doc.id, some (recordOf doc now)⟩]
          else st.broadcasts
        renderWrites := st.renderWrites
        hasSocket := st.hasSocket
        selfUserId := st.selfUserId } := by
  by_cases hb : st.hasSocket ∧ st.selfUserId = u <;>
    cases hst : st.store <;> cases ok <;>
      simp [updatePosition, savePositions, hst, hb]

/-! ### Claim theorems -/

/-- C1 (code bug): `onExternalPositionUpdate` ignores every deletion
message.  For any engine state, a message whose `position` is `null`
leaves the whole state — in particular `this.positions` — unchanged,
because the guard `if (data.id && data.position)` is falsy for a null
position; the entry for `id` is never removed, although the sender's
`onNoteDelete` broadcasts exactly this message with the comment "null
indicates deletion". -/
theorem remoteDeletion_ignored (id : String) (st : EngineState) :
    onExternalPositionUpdate { id := id, position := none } st = st := rfl

/-- C2 (counterexample): with the local user `"me"`, processing a
document change attributed to a different user `"intruder"` still
mutates CanonicalState and the store — refuting the claim that the call
has no effect when the ids differ. -/
theorem updatePosition_cex :
    (updatePosition cexDoc "intruder" 7 true emptySt).positions ≠
        emptySt.positions ∧
      (updatePosition cexDoc "intruder" 7 true emptySt).store ≠ emptySt.store ∧
      emptySt.selfUserId ≠ "intruder" := by decide

/-- C2 (amended): `updatePosition` merges the full record into
CanonicalState and persists it unconditionally; only the socket
broadcast is guarded by `game.user.id === userId` (and the presence of
socketlib). -/
theorem updatePosition_spec (doc : Doc) (u : String) (now : ℕ) (ok : Bool)
    (st : EngineState) :
    (updatePosition doc u now ok st).positions =
        mapSet st.positions doc.id (recordOf doc now) ∧
      (updatePosition doc u now ok st).store =
        (if ok && st.store.isSome then
          some (mapSet st.positions doc.id (recordOf doc now))
        else st.store) ∧
      (updatePosition doc u now ok st).broadcasts =
        (if st.hasSocket ∧ st.selfUserId = u then
          st.broadcasts ++ [⟨doc.id, some (recordOf doc now)⟩]
        else st.broadcasts) := by
  simp [updatePosition_eq]

/-- C3 (counterexample): a create event carrying the suppress flag
(`options.noSocket = true`) is NOT ignored — `onNoteCreate` never reads
`options`, so the state changes, refuting the claim for the create
kind. -/
theorem suppressFlag_cex :
    onNoteCreate cexDoc true "me" 0 true emptySt ≠ emptySt := by decide

/-- C3 (amended): only the update handler discards events with
`options.noSocket`; the create and delete handlers never inspect the
flag and behave identically with and without it. -/
theorem suppressFlag_spec (doc : Doc) (ud : UpdateData) (u : String) (now : ℕ)
    (ok : Bool) (st : EngineState) :
    onNoteUpdate doc ud true u now ok st = st ∧
      onNoteCreate doc true u now ok st = onNoteCreate doc false u now ok st ∧
      onNoteDelete doc true u ok st = onNoteDelete doc false u ok st :=
  ⟨rfl, rfl, rfl⟩

/-- C8: applying the same `PositionMessage` twice in a row yields the
same engine state — in particular the same CanonicalState — as applying
it once. -/
theorem remoteApply_idempotent (msg : PositionMessage) (st : EngineState) :
    onExternalPositionUpdate msg (onExternalPositionUpdate msg st) =
      onExternalPositionUpdate msg st := by
  obtain ⟨id, position⟩ := msg
  cases position with
  | none => rfl
  | some pos =>
      by_cases h : id = ""
      · simp [onExternalPositionUpdate, h]
      · simp [onExternalPositionUpdate, h, mapSet_mapSet]

/-- C9: a failed persistence call is caught (`savePositions` with a
rejecting `setFlag` returns with the whole state, store included,
unchanged — no exception escapes), and the in-memory mutation of
`updatePosition` is not rolled back: `this.positions` after a failing
persist is exactly what it is after a successful one. -/
theorem persistFailure_spec (doc : Doc) (u : String) (now : ℕ)
    (st : EngineState) :
    savePositions false st = st ∧
      (updatePosition doc u now false st).positions =
        (updatePosition doc u now true st).positions := by
  constructor
  · cases hst : st.store <;> simp [savePositions, hst]
  · simp [updatePosition_eq]

/-- C10: `searchNotesByText` never returns a record with empty text —
even though every string, via `jsIncludes s "" = true`, contains the
empty substring — and returns exactly the records with non-empty text
whose lowercased text contains the lowercased query. -/
theorem searchNotesByText_spec (st : EngineState) (q : String) (r : NoteRecord) :
    (∀ s : String, jsIncludes s "" = true) ∧
      (r ∈ searchNotesByText st q ↔
        r ∈ st.positions.map Prod.snd ∧ r.text ≠ "" ∧
          jsIncludes (jsToLowerCase r.text) (jsToLowerCase q) = true) := by
  constructor
  · intro s
    simpa [jsIncludes] using containsSubL_nil s.toList
  · simp [searchNotesByText, List.mem_filter, and_assoc]

/-- Characterization of the argmin fold of `findNearestNote`: either no
element beats the running bound and the accumulator is returned, or the
result is the first element attaining the minimum — strictly closer than
every element before it and at most as far as every element after it. -/
theorem nnLoop_cases (x y : ℚ) (l : List NoteRecord) :
    ∀ (a : Option NoteRecord) (m : ℚ),
      (nnLoop x y l a m = a ∧ ∀ r ∈ l, m ≤ dSq x y r) ∨
      (∃ pre r post, nnLoop x y l a m = some r ∧ l = pre ++ r :: post ∧
        dSq x y r < m ∧ (∀ e ∈ pre, dSq x y r < dSq x y e) ∧
        (∀ e ∈ post, dSq x y r ≤ dSq x y e)) := by
  induction l with
  | nil => intro a m; left; exact ⟨rfl, by simp⟩
  | cons p rest ih =>
      intro a m
      by_cases h : dSq x y p < m
      · rcases ih (some p) (dSq x y p) with ⟨heq, hall⟩ |
          ⟨pre, r, post, heq, hsplit, hlt, hpre, hpost⟩
        · right
          exact ⟨[], p, rest, by simpa [nnLoop, h] using heq, by simp, h,
            by simp, hall⟩
        · right
          refine ⟨p :: pre, r, post, by simpa [nnLoop, h] using heq,
            by simp [hsplit], hlt.trans h, ?_, hpost⟩
          intro e he
          rcases List.mem_cons.mp he with rfl | he'
          · exact hlt
          · exact hpre e he'
      · rcases ih a m with ⟨heq, hall⟩ |
          ⟨pre, r, post, heq, hsplit, hlt, hpre, hpost⟩
        · left
          refine ⟨by simpa [nnLoop, h] using heq, ?_⟩
          intro r hr
          rcases List.mem_cons.mp hr with rfl | hr'
          · exact le_of_not_lt h
          · exact hall r hr'
        · right
          refine ⟨p :: pre, r, post, by simpa [nnLoop, h] using heq,
            by simp [hsplit], hlt, ?_, hpost⟩
          intro e he
          rcases List.mem_cons.mp he with rfl | he'
          · exact hlt.trans_le (le_of_not_lt h)
          · exact hpre e he'

/-- C6 (counterexample): the records with ids `"b"` (at `(0,0)`,
inserted first) and `"a"` (at `(2,0)`) are both at squared distance 1
from the query point `(1,0)`, yet `findNearestNote` returns the `"b"`
record although `"a" < "b"` — refuting the lowest-id tie-break. -/
theorem findNearestNote_tie_cex :
    findNearestNote tieState 1 0 100 = some (mkRec "b" 0 0 "") ∧
      dSq 1 0 (mkRec "a" 2 0 "") = dSq 1 0 (mkRec "b" 0 0 "") ∧
      (mkRec "a" 2 0 "").id < (mkRec "b" 0 0 "").id ∧
      (mkRec "a" 2 0 "") ∈ tieState.positions.map Prod.snd := by
  refine ⟨?_, by norm_num [dSq, mkRec], ?_, by simp [tieState, emptySt]⟩
  · norm_num [findNearestNote, tieState, emptySt, nnLoop, dSq, mkRec]
  · show ("a" : String) < "b"
    rw [String.lt_iff_toList_lt]
    decide

/-- C6 (amended): `findNearestNote` returns `none` exactly when no
record is strictly within `maxDistance` (comparisons taken on squared
Euclidean distances, equivalent to the source's `Math.sqrt` comparisons
since `maxDistance ≥ 0`); otherwise it returns a record strictly within
`maxDistance` whose distance is minimal among all records, and a tie on
the minimal distance is broken by the map's iteration (insertion) order
— the returned record is strictly closer than every record before it —
not by lowest id. -/
theorem findNearestNote_spec (st : EngineState) (x y maxD : ℚ)
    (hmd : 0 ≤ maxD) :
    (findNearestNote st x y maxD = none ↔
        ∀ r ∈ st.positions.map Prod.snd, maxD * maxD ≤ dSq x y r) ∧
      (∀ r, findNearestNote st x y maxD = some r →
        dSq x y r < maxD * maxD ∧
          (∀ e ∈ st.positions.map Prod.snd, dSq x y r ≤ dSq x y e) ∧
          ∃ pre post, st.positions.map Prod.snd = pre ++ r :: post ∧
            ∀ e ∈ pre, dSq x y r < dSq x y e) := by
  have H := nnLoop_cases x y (st.positions.map Prod.snd) none (maxD * maxD)
  constructor
  · rcases H with ⟨heq, hall⟩ | ⟨pre, r, post, heq, hsplit, hlt, hpre, hpost⟩
    · constructor
      · intro _ r hr; exact hall r hr
      · intro _; exact heq
    · constructor
      · intro hn
        rw [findNearestNote] at hn
        rw [hn] at heq
        exact absurd heq (by simp)
      · intro hall
        exact absurd (hall r (by simp [hsplit])) (not_le.mpr hlt)
  · intro r hr
    rcases H with ⟨heq, hall⟩ | ⟨pre, r', post, heq, hsplit, hlt, hpre, hpost⟩
    · rw [findNearestNote] at hr
      rw [hr] at heq
      exact absurd heq (by simp)
    · rw [findNearestNote] at hr
      rw [hr] at heq
      have hrr : r = r' := by injection heq
      subst hrr
      refine ⟨hlt, ?_, pre, post, hsplit, hpre⟩
      intro e he
      rw [hsplit] at he
      rcases List.mem_append.mp he with hp | hc
      · exact le_of_lt (hpre e hp)
      · rcases List.mem_cons.mp hc with rfl | hp'
        · exact le_refl _
        · exact hpost e hp'

/-- C6 (witness): the amended theorem applied to the spec's example
state (records at `(0,0)` and `(10,0)`) with query `(1, 0, 100)`. -/
theorem findNearestNote_spec_witness :
    (0 : ℚ) ≤ 100 ∧
      ((findNearestNote nnState 1 0 100 = none ↔
          ∀ r ∈ nnState.positions.map Prod.snd,
            (100 : ℚ) * 100 ≤ dSq 1 0 r) ∧
        (∀ r, findNearestNote nnState 1 0 100 = some r →
          dSq 1 0 r < (100 : ℚ) * 100 ∧
            (∀ e ∈ nnState.positions.map Prod.snd, dSq 1 0 r ≤ dSq 1 0 e) ∧
            ∃ pre post, nnState.positions.map Prod.snd = pre ++ r :: post ∧
              ∀ e ∈ pre, dSq 1 0 r < dSq 1 0 e)) :=
  ⟨by norm_num, findNearestNote_spec nnState 1 0 100 (by norm_num)⟩

theorem ite_keep_eq {α : Type} (a b : α) [Decidable (a = b)] :
    (if a = b then a else b) = b := by
  split <;> simp_all

/-- The corrected drawing agrees with the record on every compared
field. -/
theorem correctedDrawing_eq (d : Drawing) (r : NoteRecord) :
    correctedDrawing d r = drawingOf r := by
  simp [correctedDrawing, drawingOf, ite_keep_eq]

theorem diffFields_drawingOf (r : NoteRecord) :
    diffFields (drawingOf r) r = false := by
  simp [diffFields, drawingOf]

theorem diffFields_eq_false_iff (d : Drawing) (r : NoteRecord) :
    diffFields d r = false ↔ d = drawingOf r := by
  constructor
  · intro h
    cases d
    simp only [diffFields, Bool.or_eq_false_iff, decide_eq_false_iff_not,
      not_not] at h
    simp only [drawingOf, Drawing.mk.injEq]
    tauto
  · rintro rfl
    exact diffFields_drawingOf r

theorem mapGet_mapSet_self {α : Type} (m : List (String × α)) (k : String)
    (v : α) : mapGet (mapSet m k v) k = some v := by
  induction m with
  | nil => simp [mapGet, mapSet]
  | cons p rest ih =>
      obtain ⟨k', v'⟩ := p
      by_cases h : k' = k
      · simp [mapSet, mapGet, h]
      · simp [mapSet, mapGet, h, ih]

theorem mapGet_mapSet_other {α : Type} (m : List (String × α)) (k k' : String)
    (v : α) (h : k ≠ k') : mapGet (mapSet m k v) k' = mapGet m k' := by
  induction m with
  | nil => simp [mapGet, mapSet, h]
  | cons p rest ih =>
      obtain ⟨k0, v0⟩ := p
      by_cases h0 : k0 = k
      · simp [mapSet, mapGet, h0, h]
      · simp only [mapSet, if_neg h0]
        by_cases h1 : k0 = k'
        · simp [mapGet, h1]
        · simp [mapGet, h1, ih]

/-- Ids not among the stored keys are untouched by the correction
loop. -/
theorem applyCorrections_mapGet_notin (saved : List (String × NoteRecord)) :
    ∀ (ds : List (String × Drawing)) (id : String),
      id ∉ saved.map Prod.fst →
      mapGet (applyCorrections saved ds).1 id = mapGet ds id := by
  induction saved with
  | nil => intro ds id _; rfl
  | cons p rest ih =>
      obtain ⟨i0, r0⟩ := p
      intro ds id h
      rw [List.map_cons, List.mem_cons, not_or] at h
      obtain ⟨hne, h2⟩ := h
      cases hg : mapGet ds i0 with
      | none =>
          simp only [applyCorrections, hg]
          exact ih ds id h2
      | some d =>
          by_cases hd : diffFields d r0
          · simp only [applyCorrections, hg, hd, if_true]
            rw [ih _ id h2]
            exact mapGet_mapSet_other ds i0 id _ (fun he => hne he.symm)
          · simp only [applyCorrections, hg, hd, if_false]
            exact ih ds id h2

/-- After the correction loop, every stored entry whose drawing is live
has its drawing equal to the record on all compared fields. -/
theorem applyCorrections_corrects (saved : List (String × NoteRecord)) :
    ∀ (ds : List (String × Drawing)), (saved.map Prod.fst).Nodup →
      ∀ id r, (id, r) ∈ saved →
        ∀ d, mapGet (applyCorrections saved ds).1 id = some d →
          d = drawingOf r := by
  induction saved with
  | nil => intro ds _ id r h; exact absurd h (List.not_mem_nil _)
  | cons p rest ih =>
      obtain ⟨i0, r0⟩ := p
      intro ds hnd id r hmem d hget
      rw [List.map_cons, List.nodup_cons] at hnd
      obtain ⟨hi0, hnd'⟩ := hnd
      rcases List.mem_cons.mp hmem with heq | hmem'
      · injection heq with e1 e2
        subst e1; subst e2
        cases hg : mapGet ds id with
        | none =>
            rw [show (applyCorrections ((id, r) :: rest) ds).1 =
                (applyCorrections rest ds).1 from by
              simp only [applyCorrections, hg]] at hget
            rw [applyCorrections_mapGet_notin rest ds id hi0, hg] at hget
            exact absurd hget (by simp)
        | some d0 =>
            by_cases hd : diffFields d0 r
            · rw [show (applyCorrections ((id, r) :: rest) ds).1 =
                  (applyCorrections rest
                    (mapSet ds id (correctedDrawing d0 r))).1 from by
                simp only [applyCorrections, hg, hd, if_true]] at hget
              rw [applyCorrections_mapGet_notin rest _ id hi0,
                mapGet_mapSet_self] at hget
              injection hget with e
              rw [← e, correctedDrawing_eq]
            · rw [show (applyCorrections ((id, r) :: rest) ds).1 =
                  (applyCorrections rest ds).1 from by
                simp only [applyCorrections, hg, hd, Bool.false_eq_true, if_false]] at hget
              rw [applyCorrections_mapGet_notin rest ds id hi0, hg] at hget
              injection hget with e
              rw [← e]
              exact (diffFields_eq_false_iff d0 r).mp
                (Bool.not_eq_true _ ▸ hd)
      · cases hg : mapGet ds i0 with
        | none =>
            rw [show (applyCorrections ((i0, r0) :: rest) ds).1 =
                (applyCorrections rest ds).1 from by
              simp only [applyCorrections, hg]] at hget
            exact ih ds hnd' id r hmem' d hget
        | some d0 =>
            by_cases hd : diffFields d0 r0
            · rw [show (applyCorrections ((i0, r0) :: rest) ds).1 =
                  (applyCorrections rest
                    (mapSet ds i0 (correctedDrawing d0 r0))).1 from by
                simp only [applyCorrections, hg, hd, if_true]] at hget
              exact ih _ hnd' id r hmem' d hget
            · rw [show (applyCorrections ((i0, r0) :: rest) ds).1 =
                  (applyCorrections rest ds).1 from by
                simp only [applyCorrections, hg, hd, Bool.false_eq_true, if_false]] at hget
              exact ih ds hnd' id r hmem' d hget

/-- When no live drawing differs from its stored record, the correction
loop writes nothing and leaves the drawings unchanged. -/
theorem applyCorrections_noop (saved : List (String × NoteRecord)) :
    ∀ (ds : List (String × Drawing)),
      (∀ id r, (id, r) ∈ saved →
        ∀ d, mapGet ds id = some d → diffFields d r = false) →
      applyCorrections saved ds = (ds, []) := by
  induction saved with
  | nil => intro ds _; rfl
  | cons p rest ih =>
      obtain ⟨i0, r0⟩ := p
      intro ds h
      cases hg : mapGet ds i0 with
      | none =>
          rw [show applyCorrections ((i0, r0) :: rest) ds =
              applyCorrections rest ds from by simp only [applyCorrections, hg]]
          exact ih ds (fun id r hm => h id r (List.mem_cons_of_mem _ hm))
      | some d0 =>
          have hd : diffFields d0 r0 = false :=
            h i0 r0 (List.mem_cons_self _ _) d0 hg
          rw [show applyCorrections ((i0, r0) :: rest) ds =
              applyCorrections rest ds from by
            simp only [applyCorrections, hg, hd, Bool.false_eq_true, if_false]]
          exact ih ds (fun id r hm => h id r (List.mem_cons_of_mem _ hm))

/-- Running the correction loop a second time over already-corrected
drawings is a no-op. -/
theorem applyCorrections_idem (saved : List (String × NoteRecord))
    (ds : List (String × Drawing)) (h : (saved.map Prod.fst).Nodup) :
    applyCorrections saved (applyCorrections saved ds).1 =
      ((applyCorrections saved ds).1, []) := by
  apply applyCorrections_noop
  intro id r hmem d hget
  have he := applyCorrections_corrects saved ds h id r hmem d hget
  rw [he]
  exact diffFields_drawingOf r

/-- C7: with a stored snapshot `S` (a JavaScript object, so its keys are
unique), `loadPositions` makes CanonicalState structurally equal to `S`,
emits zero broadcasts, never writes the store, and running it again on
the unchanged store changes nothing — in particular it performs no
further render write. -/
theorem loadPositions_spec (st : EngineState) (S : PositionsMap)
    (hstore : st.store = some S) (hnd : (S.map Prod.fst).Nodup) :
    (loadPositions st).positions = S ∧
      (loadPositions st).broadcasts = st.broadcasts ∧
      (loadPositions st).store = st.store ∧
      loadPositions (loadPositions st) = loadPositions st := by
  have hld : loadPositions st =
      { st with
        positions := S
        drawings := (applyCorrections S st.drawings).1
        renderWrites := st.renderWrites ++ (applyCorrections S st.drawings).2 } := by
    simp [loadPositions, hstore]
  refine ⟨by rw [hld], by rw [hld], by rw [hld], ?_⟩
  rw [hld]
  simp [loadPositions, hstore, applyCorrections_idem S st.drawings hnd]

/-- C7 (witness): the theorem applied to a state whose store holds one
record while the matching rendered drawing is stale. -/
theorem loadPositions_spec_witness :
    hydState.store = some hydStore ∧ (hydStore.map Prod.fst).Nodup ∧
      ((loadPositions hydState).positions = hydStore ∧
        (loadPositions hydState).broadcasts = hydState.broadcasts ∧
        (loadPositions hydState).store = hydState.store ∧
        loadPositions (loadPositions hydState) = loadPositions hydState) :=
  ⟨rfl, by decide, loadPositions_spec hydState hydStore rfl (by decide)⟩

/-- The character limit effectively used for a sticky note at base font
size under the spec's `baseLimits.sticky = 60` configuration: the lookup
by font name misses, so the built-in default 60 is scaled by 1. -/
theorem stdCharLimit : charLimitOf stdLimits "Signika" "sticky" 15 = 60 := by
  have hm : mapGet (getBaseCharacterLimits stdLimits) "Signika" = none := by
    decide
  have hr : jsRoundQ (60 * (BASE_FONT_SIZE / 15)) = 60 := by
    norm_num [jsRoundQ, BASE_FONT_SIZE]
  simp only [charLimitOf, getDynamicCharacterLimits, hm, hr, DynLimits.get]
  norm_num

/-- Evaluation of `text.slice(0, 60)` on a length-80 text. -/
theorem jsSlice_sixty (s : String) (h : s.length = 80) :
    jsSlice s 60 = (s.toList.take 60).asString := by
  simp only [jsSlice, h]
  norm_num [show Int.toNat 60 = 60 from by decide]

/-- C4 (code bug): with the configured budget `baseLimits.sticky = 100`,
a sticky note at base font size gets the character limit 60 (the
built-in default), not `round(100 · 1) = 100` as the claim states,
because `_truncateText` passes the font name (`"Signika"`) as the
`noteType` argument of `getDynamicCharacterLimits`, so the configured
`baseLimits` entry is never consulted.  Third conjunct: even a lookup
that did hit a configured number (font name equal to the note type)
would read `.sticky` off a number, producing `NaN` and the `|| 100`
fallback — never the configured `round(90 · 1) = 90`. -/
theorem truncation_limit_bug :
    charLimitOf (some [("sticky", 100), ("photo", 15), ("index", 200)])
        "Signika" "sticky" 15 = 60 ∧
      jsRoundQ (100 * (BASE_FONT_SIZE / 15)) = 100 ∧
      charLimitOf (some [("sticky", 90), ("photo", 15), ("index", 200)])
        "sticky" "sticky" 15 = 100 := by
  refine ⟨?_, ?_, ?_⟩
  · have hm : mapGet
        (getBaseCharacterLimits
          (some [("sticky", (100 : ℚ)), ("photo", 15), ("index", 200)]))
        "Signika" = none := by decide
    have hr : jsRoundQ (60 * (BASE_FONT_SIZE / 15)) = 60 := by
      norm_num [jsRoundQ, BASE_FONT_SIZE]
    simp only [charLimitOf, getDynamicCharacterLimits, hm, hr, DynLimits.get]
    norm_num
  · norm_num [jsRoundQ, BASE_FONT_SIZE]
  · have hm : mapGet
        (getBaseCharacterLimits
          (some [("sticky", (90 : ℚ)), ("photo", 15), ("index", 200)]))
        "sticky" = some 90 := by decide
    simp only [charLimitOf, getDynamicCharacterLimits, hm, DynLimits.get]
    norm_num

/-- C5 (counterexample): on a length-80 text beginning with a space, the
source's `.trim()` also removes the LEADING space, so the result differs
from "the first 60 characters with trailing whitespace trimmed, followed
by the ellipsis marker" that the claim describes. -/
theorem truncate_trims_leading_cex :
    _truncateText stdLimits cexText80 "Signika" "sticky" 15 ≠
      trimTrailing ((cexText80.toList.take 60).asString) ++ "..." := by
  have hlen : cexText80.length = 80 := by decide
  have h1 : _truncateText stdLimits cexText80 "Signika" "sticky" 15 =
      jsTrim (jsSlice cexText80 60) ++ "..." := by
    simp only [_truncateText, stdCharLimit]
    rw [if_neg (by rw [hlen]; norm_num)]
  rw [h1, jsSlice_sixty cexText80 hlen]
  decide

/-- C5 (amended): `_truncateText` truncates over-limit text to the first
`limit` characters with whitespace trimmed from BOTH ends (JavaScript
`trim()`), followed by `"..."`, and returns text of length ≤ limit
unchanged.  In the spec's scenario (`baseLimits.sticky = 60`, sticky
note, base font size — where the effective limit is 60), a length-80
text yields its trimmed first 60 characters plus the marker, and a
length-40 text is returned unchanged. -/
theorem truncateText_spec (text t2 t3 t4 : String)
    (setting : Option (List (String × ℚ))) (font noteType : String) (fs : ℚ)
    (h80 : text.length = 80) (h40 : t2.length = 40)
    (h3 : (t3.length : ℚ) ≤ charLimitOf setting font noteType fs)
    (h4 : charLimitOf setting font noteType fs < (t4.length : ℚ)) :
    _truncateText stdLimits text "Signika" "sticky" 15 =
        jsTrim ((text.toList.take 60).asString) ++ "..." ∧
      _truncateText stdLimits t2 "Signika" "sticky" 15 = t2 ∧
      _truncateText setting t3 font noteType fs = t3 ∧
      _truncateText setting t4 font noteType fs =
        jsTrim (jsSlice t4 (charLimitOf setting font noteType fs)) ++ "..." := by
  refine ⟨?_, ?_, ?_, ?_⟩
  · simp only [_truncateText, stdCharLimit]
    rw [if_neg (by rw [h80]; norm_num), jsSlice_sixty text h80]
  · simp only [_truncateText, stdCharLimit]
    rw [if_pos (by rw [h40]; norm_num)]
  · simp only [_truncateText]
    rw [if_pos h3]
  · simp only [_truncateText]
    rw [if_neg (not_le.mpr h4)]

/-- C5 (witness): the amended theorem at a length-80 text of `'b'`s, a
length-40 text of `'c'`s, the short text `"hi"`, and the length-80 text
again for the over-limit conjunct. -/
theorem truncateText_spec_witness :
    wText80.length = 80 ∧ wText40.length = 40 ∧
      ((("hi" : String).length : ℚ) ≤ charLimitOf stdLimits "Signika" "sticky" 15) ∧
      (charLimitOf stdLimits "Signika" "sticky" 15 < ((wText80.length : ℚ))) ∧
      (_truncateText stdLimits wText80 "Signika" "sticky" 15 =
          jsTrim ((wText80.toList.take 60).asString) ++ "..." ∧
        _truncateText stdLimits wText40 "Signika" "sticky" 15 = wText40 ∧
        _truncateText stdLimits "hi" "Signika" "sticky" 15 = "hi" ∧
        _truncateText stdLimits wText80 "Signika" "sticky" 15 =
          jsTrim (jsSlice wText80 (charLimitOf stdLimits "Signika" "sticky" 15)) ++
            "...") :=
  ⟨by decide, by decide,
    by rw [stdCharLimit]
       norm_num [show ("hi" : String).length = 2 from by decide],
    by rw [stdCharLimit]
       norm_num [show wText80.length = 80 from by decide],
    truncateText_spec wText80 wText40 "hi" wText80 stdLimits "Signika" "sticky" 15
      (by decide) (by decide)
      (by rw [stdCharLimit]
          norm_num [show ("hi" : String).length = 2 from by decide])
      (by rw [stdCharLimit]
          norm_num [show wText80.length = 80 from by decide])⟩

end InvestigationBoard
